import Mathlib

/-!
A shallow embedding of the TLK v1 string-table codec from tlk.py and of the
bilingual merge routine from generate-bilingual-bg1and2ee.py.

Conventions:
* a byte buffer is a List Nat whose elements are the byte values;
* a Python str is the list of its Unicode code points (List Nat);
* the configurable text codec (cp1252, utf-8, ...) is passed in as a pair of
  functions: enc maps code points to bytes, dec maps bytes to code points,
  standing for str.encode / bytes.decode with the caller-supplied encoding
  and errors set to replace (which never raises);
* exceptions are modelled with Except: struct.error raised by
  struct.unpack_from on a too-short buffer, and the two ValueErrors raised
  on a bad signature or version, each get a constructor.
-/

namespace Tlk

/-- Entry flag bit 0 (FLAG_TEXT = 0x01 in tlk.py). -/
def FLAG_TEXT : Nat := 1

/-- Header size in bytes (struct.calcsize of the header format). -/
def HDR_SIZE : Nat := 18

/-- Entry record size in bytes (struct.calcsize of the entry format). -/
def ENTRY_SIZE : Nat := 26

/-- The four signature bytes: TLK followed by one space. -/
def TLK_SIGNATURE : List Nat := [84, 76, 75, 32]

/-- The four version bytes: V1 followed by two spaces. -/
def TLK_VERSION : List Nat := [86, 49, 32, 32]

/-- dataclass TlkEntry of tlk.py: one string entry of a TLK file. -/
structure TlkEntry where
  text : List Nat
  sound_resref : List Nat
  flags : Nat
  volume_variance : Nat
  pitch_variance : Nat
  deriving DecidableEq, Inhabited

/-- class TlkFile of tlk.py: language_id plus the ordered entry list. -/
structure TlkFile where
  language_id : Nat
  entries : List TlkEntry
  deriving DecidableEq, Inhabited

/-- Little-endian encoding of a value on w bytes, as produced by struct.pack
for the H (w = 2) and I (w = 4) fields. -/
def writeLE : Nat → Nat → List Nat
  | _, 0 => []
  | v, w + 1 => v % 256 :: writeLE (v / 256) w

/-- Little-endian value of the first w bytes of a buffer. -/
def readLEList : List Nat → Nat → Nat
  | _, 0 => 0
  | [], _ + 1 => 0
  | b :: rest, w + 1 => b + 256 * readLEList rest w

/-- struct.unpack_from of one w-byte little-endian field at offset off.
Callers guard the buffer length first, as unpack_from raises on a short
buffer before any field is read. -/
def readLE (data : List Nat) (off w : Nat) : Nat :=
  readLEList (data.drop off) w

/-- The sound_resref normalization of to_bytes: slice to the first 8 bytes,
then zero-pad on the right to exactly 8 bytes. -/
def ljust8 (b : List Nat) : List Nat :=
  b.take 8 ++ List.replicate (8 - (b.take 8).length) 0

/-- flags &= ~FLAG_TEXT on an unbounded nonnegative int: clear bit 0,
keep all higher bits. -/
def clearTextFlag (flags : Nat) : Nat := 2 * (flags / 2)

/-- The flags recomputation of TlkFile.to_bytes: bit 0 is forced to agree
with the presence of text, all other bits pass through. -/
def recalcFlags (entry : TlkEntry) : Nat :=
  if entry.text ≠ [] then entry.flags ||| FLAG_TEXT else clearTextFlag entry.flags

/-- struct.pack of one 26-byte entry record for TlkFile.to_bytes, given the
string offset and byte length computed for the entry. -/
def packEntry (entry : TlkEntry) (stringOffset stringLength : Nat) : List Nat :=
  writeLE (recalcFlags entry) 2
    ++ ljust8 entry.sound_resref
    ++ writeLE entry.volume_variance 4
    ++ writeLE entry.pitch_variance 4
    ++ writeLE stringOffset 4
    ++ writeLE stringLength 4

/-- The entry table of TlkFile.to_bytes. The source first collects the
encoded strings and their running offsets and then packs each entry; this
single pass carries the running offset (the length of the string block
built so far) directly, producing the same bytes. -/
def entryTable (enc : List Nat → List Nat) : List TlkEntry → Nat → List Nat
  | [], _ => []
  | e :: es, off =>
      packEntry e off (enc e.text).length ++ entryTable enc es (off + (enc e.text).length)

/-- The string block of TlkFile.to_bytes: the encoded text of every entry,
concatenated in entry order with nothing in between. -/
def stringBlock (enc : List Nat → List Nat) : List TlkEntry → List Nat
  | [] => []
  | e :: es => enc e.text ++ stringBlock enc es

/-- The 18-byte header packed by TlkFile.to_bytes. -/
def tlkHeader (tlk : TlkFile) : List Nat :=
  TLK_SIGNATURE ++ TLK_VERSION
    ++ writeLE tlk.language_id 2
    ++ writeLE tlk.entries.length 4
    ++ writeLE (HDR_SIZE + tlk.entries.length * ENTRY_SIZE) 4

/-- TlkFile.to_bytes: header, then the fixed-size entry table, then the
string block. -/
def to_bytes (enc : List Nat → List Nat) (tlk : TlkFile) : List Nat :=
  tlkHeader tlk ++ entryTable enc tlk.entries 0 ++ stringBlock enc tlk.entries

/-- The exceptions TlkFile._parse can raise: struct.error from a too-short
buffer, and the two ValueErrors for a wrong signature or version. -/
inductive TlkError where
  | structError
  | badSignature
  | badVersion
  deriving DecidableEq

/-- One iteration of the entry loop of TlkFile._parse: unpack the 26-byte
record at offset off (struct.error if the buffer is too short), then slice
data[stringBase + str_off : stringBase + str_off + str_len] — the slice
clips to the buffer like a Python slice — and decode it. -/
def parseEntry (dec : List Nat → List Nat) (data : List Nat) (stringBase off : Nat) :
    Except TlkError TlkEntry :=
  if off + ENTRY_SIZE ≤ data.length then
    Except.ok
      { text := dec ((data.drop (stringBase + readLE data (off + 18) 4)).take
          (readLE data (off + 22) 4))
        sound_resref := (data.drop (off + 2)).take 8
        flags := readLE data off 2
        volume_variance := readLE data (off + 10) 4
        pitch_variance := readLE data (off + 14) 4 }
  else Except.error TlkError.structError

/-- The entry loop of TlkFile._parse: parse n entries starting at index i,
aborting on the first error. -/
def parseEntries (dec : List Nat → List Nat) (data : List Nat) (stringBase : Nat) :
    Nat → Nat → Except TlkError (List TlkEntry)
  | _, 0 => Except.ok []
  | i, n + 1 =>
      match parseEntry dec data stringBase (HDR_SIZE + i * ENTRY_SIZE) with
      | Except.error e => Except.error e
      | Except.ok entry =>
          match parseEntries dec data stringBase (i + 1) n with
          | Except.error e => Except.error e
          | Except.ok rest => Except.ok (entry :: rest)

/-- TlkFile._parse: unpack the header (struct.error if fewer than 18 bytes),
validate signature and version, then parse num_entries entries. -/
def tlkParse (dec : List Nat → List Nat) (data : List Nat) : Except TlkError TlkFile :=
  if HDR_SIZE ≤ data.length then
    if data.take 4 ≠ TLK_SIGNATURE then Except.error TlkError.badSignature
    else if (data.drop 4).take 4 ≠ TLK_VERSION then Except.error TlkError.badVersion
    else
      match parseEntries dec data (readLE data 14 4) 0 (readLE data 10 4) with
      | Except.error e => Except.error e
      | Except.ok entries => Except.ok { language_id := readLE data 8 2, entries := entries }
  else Except.error TlkError.structError

-- Equality of Except values is decidable; used to evaluate the codec on
-- concrete buffers.
deriving instance DecidableEq for Except

/-- The image of one entry under encode-then-decode: text survives (when the
codec round-trips it), sound_resref is truncated/padded to 8 bytes, flags
have bit 0 recomputed from text presence, the variance fields survive. -/
def roundImage (e : TlkEntry) : TlkEntry :=
  { text := e.text
    sound_resref := ljust8 e.sound_resref
    flags := recalcFlags e
    volume_variance := e.volume_variance
    pitch_variance := e.pitch_variance }

/-- The code points the Python method str.strip removes from either end (the str
whitespace set of CPython). -/
def pyWhitespace : List Nat :=
  [9, 10, 11, 12, 13, 28, 29, 30, 31, 32, 133, 160, 5760,
   8192, 8193, 8194, 8195, 8196, 8197, 8198, 8199, 8200, 8201, 8202,
   8232, 8233, 8239, 8287, 12288]

/-- Whether a code point is whitespace for str.strip(). -/
def isPySpace (c : Nat) : Bool := pyWhitespace.contains c

/-- Python str.strip(): drop whitespace from both ends. -/
def pyStrip (t : List Nat) : List Nat :=
  ((t.dropWhile isPySpace).reverse.dropWhile isPySpace).reverse

/-- The body of the entry loop of merge_tlks: the decision over the
whitespace-stripped texts of the primary and secondary entries at one index
(generate-bilingual-bg1and2ee.py). -/
def mergeEntry (p_entry s_entry : TlkEntry) (separator : List Nat) (swap : Bool) :
    TlkEntry :=
  let p_text := pyStrip p_entry.text
  let s_text := pyStrip s_entry.text
  if p_text = [] ∧ s_text = [] then
    { text := []
      sound_resref := p_entry.sound_resref
      flags := clearTextFlag p_entry.flags
      volume_variance := p_entry.volume_variance
      pitch_variance := p_entry.pitch_variance }
  else if p_text = s_text ∨ s_text = [] then
    { text := p_entry.text
      sound_resref := p_entry.sound_resref
      flags := p_entry.flags
      volume_variance := p_entry.volume_variance
      pitch_variance := p_entry.pitch_variance }
  else if p_text = [] then
    { text := s_entry.text
      sound_resref := p_entry.sound_resref
      flags := p_entry.flags
      volume_variance := p_entry.volume_variance
      pitch_variance := p_entry.pitch_variance }
  else
    let first := if swap then s_entry.text else p_entry.text
    let second := if swap then p_entry.text else s_entry.text
    { text := first ++ separator ++ second
      sound_resref := p_entry.sound_resref
      flags := p_entry.flags ||| FLAG_TEXT
      volume_variance := p_entry.volume_variance
      pitch_variance := p_entry.pitch_variance }

/-- merge_tlks: merge entry i of both tables for every i below the minimum
of the two entry counts (zipWith truncates to that minimum, exactly as the
loop of the source over range of the minimum), keeping the primary language_id. -/
def merge_tlks (primary secondary : TlkFile) (separator : List Nat) (swap : Bool) :
    TlkFile :=
  { language_id := primary.language_id
    entries := List.zipWith (fun p s => mergeEntry p s separator swap)
      primary.entries secondary.entries }

/-- The condition under which merge_tlks prints its entry count mismatch
warning; the print itself is the only observable effect and is modelled by
this flag. -/
def merge_warns (primary secondary : TlkFile) : Bool :=
  primary.entries.length != secondary.entries.length

/-! ### List and little-endian helper lemmas -/

theorem drop_len_append {α : Type} {xs : List α} {n : Nat} (ys : List α)
    (h : xs.length = n) : (xs ++ ys).drop n = ys := by
  rw [← h, List.drop_left]

theorem drop_len_append_add {α : Type} {xs : List α} {n : Nat} (ys : List α) (k : Nat)
    (h : xs.length = n) : (xs ++ ys).drop (n + k) = ys.drop k := by
  rw [← List.drop_drop, drop_len_append ys h]

theorem take_len_append {α : Type} {xs : List α} {n : Nat} (ys : List α)
    (h : xs.length = n) : (xs ++ ys).take n = xs := by
  rw [← h, List.take_left]

theorem length_writeLE (v w : Nat) : (writeLE v w).length = w := by
  induction w generalizing v with
  | zero => rfl
  | succ w ih => simp [writeLE, ih]

theorem readLEList_writeLE (v w : Nat) (rest : List Nat) :
    readLEList (writeLE v w ++ rest) w = v % 256 ^ w := by
  induction w generalizing v with
  | zero => simp [writeLE, readLEList, Nat.mod_one]
  | succ w ih =>
      simp only [writeLE, List.cons_append, readLEList, List.append_eq]
      rw [ih, show (256 : Nat) ^ (w + 1) = 256 * 256 ^ w from by ring, Nat.mod_mul]

theorem length_ljust8 (b : List Nat) : (ljust8 b).length = 8 := by
  have h : (b.take 8).length ≤ 8 := b.length_take_le 8
  simp only [ljust8, List.length_append, List.length_replicate]
  omega

theorem length_packEntry (e : TlkEntry) (o l : Nat) : (packEntry e o l).length = 26 := by
  simp [packEntry, length_writeLE, length_ljust8]

theorem length_entryTable (enc : List Nat → List Nat) (es : List TlkEntry) (off : Nat) :
    (entryTable enc es off).length = es.length * 26 := by
  induction es generalizing off with
  | nil => rfl
  | cons e es ih =>
      simp [entryTable, length_packEntry, ih]
      ring

theorem stringBlock_append (enc : List Nat → List Nat) (xs ys : List TlkEntry) :
    stringBlock enc (xs ++ ys) = stringBlock enc xs ++ stringBlock enc ys := by
  induction xs with
  | nil => rfl
  | cons e xs ih => simp [stringBlock, ih]

theorem entryTable_append (enc : List Nat → List Nat) (xs ys : List TlkEntry) (off : Nat) :
    entryTable enc (xs ++ ys) off
      = entryTable enc xs off ++ entryTable enc ys (off + (stringBlock enc xs).length) := by
  induction xs generalizing off with
  | nil => simp [entryTable, stringBlock]
  | cons e xs ih =>
      simp [entryTable, stringBlock, ih]
      ring_nf

theorem length_tlkHeader (tlk : TlkFile) : (tlkHeader tlk).length = 18 := by
  simp [tlkHeader, TLK_SIGNATURE, TLK_VERSION, length_writeLE]

theorem length_to_bytes (enc : List Nat → List Nat) (tlk : TlkFile) :
    (to_bytes enc tlk).length
      = 18 + tlk.entries.length * 26 + (stringBlock enc tlk.entries).length := by
  simp [to_bytes, length_tlkHeader, length_entryTable]
  ring

/-! ### Flag bit lemmas -/

theorem testBit_div2 (m i : Nat) : m.testBit (i + 1) = (m / 2).testBit i := by
  simpa [Nat.div2_val] using Nat.testBit_succ m i

theorem lor_one_eq (n : Nat) : n ||| 1 = 2 * (n / 2) + 1 := by
  apply Nat.eq_of_testBit_eq
  intro i
  cases i with
  | zero =>
      simp only [Nat.testBit_lor, Nat.testBit_zero]
      simp
      omega
  | succ i =>
      rw [Nat.testBit_lor, testBit_div2, testBit_div2, testBit_div2]
      have h1 : (1 : Nat) / 2 = 0 := rfl
      have h2 : (2 * (n / 2) + 1) / 2 = n / 2 := by omega
      rw [h1, h2, Nat.zero_testBit, Bool.or_false]

theorem recalcFlags_lt {e : TlkEntry} (hf : e.flags < 2 ^ 16) : recalcFlags e < 2 ^ 16 := by
  unfold recalcFlags clearTextFlag FLAG_TEXT
  split
  · rw [lor_one_eq]
    omega
  · omega

theorem recalcFlags_testBit_zero (e : TlkEntry) :
    (recalcFlags e).testBit 0 = decide (e.text ≠ []) := by
  unfold recalcFlags clearTextFlag FLAG_TEXT
  split
  case isTrue h =>
      rw [lor_one_eq, Nat.testBit_zero]
      simp [h]
      omega
  case isFalse h =>
      rw [Nat.testBit_zero]
      simp [h]

theorem recalcFlags_testBit_pos (e : TlkEntry) (k : Nat) :
    (recalcFlags e).testBit (k + 1) = e.flags.testBit (k + 1) := by
  unfold recalcFlags clearTextFlag FLAG_TEXT
  have h2 : (2 * (e.flags / 2)) / 2 = e.flags / 2 := by omega
  split
  · rw [lor_one_eq, testBit_div2, testBit_div2]
    have h1 : (2 * (e.flags / 2) + 1) / 2 = e.flags / 2 := by omega
    rw [h1]
  · rw [testBit_div2, testBit_div2, h2]

/-! ### Where each piece of an encoded buffer sits -/

theorem drop_to_bytes_entry (enc : List Nat → List Nat) (tlk : TlkFile)
    (pre : List TlkEntry) (e : TlkEntry) (suf : List TlkEntry)
    (h : tlk.entries = pre ++ e :: suf) :
    (to_bytes enc tlk).drop (HDR_SIZE + pre.length * ENTRY_SIZE)
      = packEntry e (stringBlock enc pre).length (enc e.text).length
        ++ (entryTable enc suf ((stringBlock enc pre).length + (enc e.text).length)
            ++ stringBlock enc tlk.entries) := by
  have h18 : (tlkHeader tlk).length = HDR_SIZE := by rw [length_tlkHeader]; rfl
  have h1 : to_bytes enc tlk
      = tlkHeader tlk ++ (entryTable enc tlk.entries 0 ++ stringBlock enc tlk.entries) := by
    simp [to_bytes]
  rw [h1, drop_len_append_add _ _ h18, h, entryTable_append]
  have hlen : (entryTable enc pre 0).length = pre.length * ENTRY_SIZE := by
    rw [length_entryTable]; rfl
  rw [List.append_assoc, drop_len_append _ hlen]
  simp [entryTable, List.append_assoc]

theorem drop_to_bytes_blob (enc : List Nat → List Nat) (tlk : TlkFile) (j : Nat) :
    (to_bytes enc tlk).drop (HDR_SIZE + tlk.entries.length * ENTRY_SIZE + j)
      = (stringBlock enc tlk.entries).drop j := by
  have h1 : to_bytes enc tlk
      = (tlkHeader tlk ++ entryTable enc tlk.entries 0) ++ stringBlock enc tlk.entries := by
    simp [to_bytes]
  have hlen : (tlkHeader tlk ++ entryTable enc tlk.entries 0).length
      = HDR_SIZE + tlk.entries.length * ENTRY_SIZE := by
    simp only [List.length_append, length_tlkHeader, length_entryTable]
    rfl
  rw [h1, drop_len_append_add _ _ hlen]

theorem pow256_two : (256 : Nat) ^ 2 = 2 ^ 16 := by norm_num

theorem pow256_four : (256 : Nat) ^ 4 = 2 ^ 32 := by norm_num

/-- The flags field written to the wire for the entry after pre is the
recomputed flags value. -/
theorem wire_flags (enc : List Nat → List Nat) (tlk : TlkFile)
    (pre : List TlkEntry) (e : TlkEntry) (suf : List TlkEntry)
    (h : tlk.entries = pre ++ e :: suf) (hf : e.flags < 2 ^ 16) :
    readLE (to_bytes enc tlk) (HDR_SIZE + pre.length * ENTRY_SIZE) 2 = recalcFlags e := by
  unfold readLE
  rw [drop_to_bytes_entry enc tlk pre e suf h]
  unfold packEntry
  simp only [List.append_assoc]
  rw [readLEList_writeLE, pow256_two]
  exact Nat.mod_eq_of_lt (recalcFlags_lt hf)

/-- The sound_resref field written to the wire is the 8-byte padded or
truncated value. -/
theorem wire_sound (enc : List Nat → List Nat) (tlk : TlkFile)
    (pre : List TlkEntry) (e : TlkEntry) (suf : List TlkEntry)
    (h : tlk.entries = pre ++ e :: suf) :
    ((to_bytes enc tlk).drop (HDR_SIZE + pre.length * ENTRY_SIZE + 2)).take 8
      = ljust8 e.sound_resref := by
  rw [← List.drop_drop, drop_to_bytes_entry enc tlk pre e suf h]
  unfold packEntry
  simp only [List.append_assoc]
  rw [drop_len_append _ (length_writeLE _ 2), take_len_append _ (length_ljust8 _)]

/-- The volume_variance field written to the wire. -/
theorem wire_vol (enc : List Nat → List Nat) (tlk : TlkFile)
    (pre : List TlkEntry) (e : TlkEntry) (suf : List TlkEntry)
    (h : tlk.entries = pre ++ e :: suf) :
    readLE (to_bytes enc tlk) (HDR_SIZE + pre.length * ENTRY_SIZE + 10) 4
      = e.volume_variance % 2 ^ 32 := by
  unfold readLE
  rw [← List.drop_drop, drop_to_bytes_entry enc tlk pre e suf h]
  unfold packEntry
  simp only [List.append_assoc]
  rw [show (10 : Nat) = 2 + 8 from rfl, drop_len_append_add _ 8 (length_writeLE _ 2),
    drop_len_append _ (length_ljust8 _), readLEList_writeLE, pow256_four]

/-- The pitch_variance field written to the wire. -/
theorem wire_pitch (enc : List Nat → List Nat) (tlk : TlkFile)
    (pre : List TlkEntry) (e : TlkEntry) (suf : List TlkEntry)
    (h : tlk.entries = pre ++ e :: suf) :
    readLE (to_bytes enc tlk) (HDR_SIZE + pre.length * ENTRY_SIZE + 14) 4
      = e.pitch_variance % 2 ^ 32 := by
  unfold readLE
  rw [← List.drop_drop, drop_to_bytes_entry enc tlk pre e suf h]
  unfold packEntry
  simp only [List.append_assoc]
  rw [show (14 : Nat) = 2 + 12 from rfl, drop_len_append_add _ 12 (length_writeLE _ 2),
    show (12 : Nat) = 8 + 4 from rfl, drop_len_append_add _ 4 (length_ljust8 _),
    drop_len_append _ (length_writeLE _ 4), readLEList_writeLE, pow256_four]

/-- The string offset field written to the wire is the length of the string
block built from the preceding entries. -/
theorem wire_stroff (enc : List Nat → List Nat) (tlk : TlkFile)
    (pre : List TlkEntry) (e : TlkEntry) (suf : List TlkEntry)
    (h : tlk.entries = pre ++ e :: suf) :
    readLE (to_bytes enc tlk) (HDR_SIZE + pre.length * ENTRY_SIZE + 18) 4
      = (stringBlock enc pre).length % 2 ^ 32 := by
  unfold readLE
  rw [← List.drop_drop, drop_to_bytes_entry enc tlk pre e suf h]
  unfold packEntry
  simp only [List.append_assoc]
  rw [show (18 : Nat) = 2 + 16 from rfl, drop_len_append_add _ 16 (length_writeLE _ 2),
    show (16 : Nat) = 8 + 8 from rfl, drop_len_append_add _ 8 (length_ljust8 _),
    show (8 : Nat) = 4 + 4 from rfl, drop_len_append_add _ 4 (length_writeLE _ 4),
    drop_len_append _ (length_writeLE _ 4), readLEList_writeLE, pow256_four]

/-- The string length field written to the wire is the encoded byte length
of the text of the entry. -/
theorem wire_strlen (enc : List Nat → List Nat) (tlk : TlkFile)
    (pre : List TlkEntry) (e : TlkEntry) (suf : List TlkEntry)
    (h : tlk.entries = pre ++ e :: suf) :
    readLE (to_bytes enc tlk) (HDR_SIZE + pre.length * ENTRY_SIZE + 22) 4
      = (enc e.text).length % 2 ^ 32 := by
  unfold readLE
  rw [← List.drop_drop, drop_to_bytes_entry enc tlk pre e suf h]
  unfold packEntry
  simp only [List.append_assoc]
  rw [show (22 : Nat) = 2 + 20 from rfl, drop_len_append_add _ 20 (length_writeLE _ 2),
    show (20 : Nat) = 8 + 12 from rfl, drop_len_append_add _ 12 (length_ljust8 _),
    show (12 : Nat) = 4 + 8 from rfl, drop_len_append_add _ 8 (length_writeLE _ 4),
    show (8 : Nat) = 4 + 4 from rfl, drop_len_append_add _ 4 (length_writeLE _ 4),
    drop_len_append _ (length_writeLE _ 4), readLEList_writeLE, pow256_four]

/-- Slicing the blob at the offset and length written for the entry after
pre recovers exactly the encoded text of that entry. -/
theorem wire_text (enc : List Nat → List Nat) (tlk : TlkFile)
    (pre : List TlkEntry) (e : TlkEntry) (suf : List TlkEntry)
    (h : tlk.entries = pre ++ e :: suf) :
    ((to_bytes enc tlk).drop
        (HDR_SIZE + tlk.entries.length * ENTRY_SIZE + (stringBlock enc pre).length)).take
      (enc e.text).length = enc e.text := by
  rw [drop_to_bytes_blob, h, stringBlock_append, drop_len_append _ rfl,
    show stringBlock enc (e :: suf) = enc e.text ++ stringBlock enc suf from rfl,
    take_len_append _ rfl]

/-- Parsing the 26-byte record written for the entry after pre yields its
round-trip image. -/
theorem parseEntry_to_bytes (enc dec : List Nat → List Nat) (tlk : TlkFile)
    (pre : List TlkEntry) (e : TlkEntry) (suf : List TlkEntry)
    (h : tlk.entries = pre ++ e :: suf)
    (hf : e.flags < 2 ^ 16) (hv : e.volume_variance < 2 ^ 32)
    (hp : e.pitch_variance < 2 ^ 32)
    (hblob : (stringBlock enc tlk.entries).length < 2 ^ 32)
    (hdec : dec (enc e.text) = e.text) :
    parseEntry dec (to_bytes enc tlk) (HDR_SIZE + tlk.entries.length * ENTRY_SIZE)
      (HDR_SIZE + pre.length * ENTRY_SIZE) = Except.ok (roundImage e) := by
  have hoffle : (stringBlock enc pre).length ≤ (stringBlock enc tlk.entries).length := by
    rw [h, stringBlock_append, List.length_append]
    omega
  have hlenle : (enc e.text).length ≤ (stringBlock enc tlk.entries).length := by
    rw [h, stringBlock_append, List.length_append,
      show stringBlock enc (e :: suf) = enc e.text ++ stringBlock enc suf from rfl,
      List.length_append]
    omega
  have hNlt : pre.length < tlk.entries.length := by
    rw [h, List.length_append, List.length_cons]
    omega
  have hbound : HDR_SIZE + pre.length * ENTRY_SIZE + ENTRY_SIZE ≤ (to_bytes enc tlk).length := by
    rw [length_to_bytes]
    unfold HDR_SIZE ENTRY_SIZE
    omega
  unfold parseEntry
  rw [if_pos hbound]
  rw [wire_flags enc tlk pre e suf h hf, wire_sound enc tlk pre e suf h,
    wire_vol enc tlk pre e suf h, wire_pitch enc tlk pre e suf h,
    wire_stroff enc tlk pre e suf h, wire_strlen enc tlk pre e suf h,
    Nat.mod_eq_of_lt hv, Nat.mod_eq_of_lt hp,
    Nat.mod_eq_of_lt (lt_of_le_of_lt hoffle hblob),
    Nat.mod_eq_of_lt (lt_of_le_of_lt hlenle hblob),
    wire_text enc tlk pre e suf h, hdec]
  rfl

/-- The entry loop of the decoder, run over an encoded buffer, reproduces
the round-trip images of the remaining entries. -/
theorem parseEntries_to_bytes (enc dec : List Nat → List Nat) (tlk : TlkFile)
    (hf : ∀ x ∈ tlk.entries, x.flags < 2 ^ 16)
    (hv : ∀ x ∈ tlk.entries, x.volume_variance < 2 ^ 32)
    (hp : ∀ x ∈ tlk.entries, x.pitch_variance < 2 ^ 32)
    (hdec : ∀ x ∈ tlk.entries, dec (enc x.text) = x.text)
    (hblob : (stringBlock enc tlk.entries).length < 2 ^ 32) :
    ∀ (suf pre : List TlkEntry), tlk.entries = pre ++ suf →
      parseEntries dec (to_bytes enc tlk) (HDR_SIZE + tlk.entries.length * ENTRY_SIZE)
        pre.length suf.length = Except.ok (suf.map roundImage) := by
  intro suf
  induction suf with
  | nil => intro pre h; rfl
  | cons e suf ih =>
      intro pre h
      have hmem : e ∈ tlk.entries := by rw [h]; simp
      have hstep := parseEntry_to_bytes enc dec tlk pre e suf h (hf e hmem) (hv e hmem)
        (hp e hmem) hblob (hdec e hmem)
      have h2 : tlk.entries = (pre ++ [e]) ++ suf := by rw [h]; simp
      have hrec := ih (pre ++ [e]) h2
      rw [show (pre ++ [e]).length = pre.length + 1 from by simp] at hrec
      simp only [List.length_cons, parseEntries, hstep, hrec, List.map_cons]

/-! ### Header fields of an encoded buffer -/

theorem to_bytes_take4 (enc : List Nat → List Nat) (tlk : TlkFile) :
    (to_bytes enc tlk).take 4 = TLK_SIGNATURE := by
  simp only [to_bytes, tlkHeader, List.append_assoc]
  rw [take_len_append _ (show TLK_SIGNATURE.length = 4 from rfl)]

theorem to_bytes_version (enc : List Nat → List Nat) (tlk : TlkFile) :
    ((to_bytes enc tlk).drop 4).take 4 = TLK_VERSION := by
  simp only [to_bytes, tlkHeader, List.append_assoc]
  rw [drop_len_append _ (show TLK_SIGNATURE.length = 4 from rfl),
    take_len_append _ (show TLK_VERSION.length = 4 from rfl)]

theorem wire_lang (enc : List Nat → List Nat) (tlk : TlkFile)
    (h : tlk.language_id < 2 ^ 16) :
    readLE (to_bytes enc tlk) 8 2 = tlk.language_id := by
  unfold readLE
  simp only [to_bytes, tlkHeader, List.append_assoc]
  rw [show (8 : Nat) = 4 + 4 from rfl,
    drop_len_append_add _ 4 (show TLK_SIGNATURE.length = 4 from rfl),
    drop_len_append _ (show TLK_VERSION.length = 4 from rfl), readLEList_writeLE, pow256_two]
  exact Nat.mod_eq_of_lt h

theorem wire_count (enc : List Nat → List Nat) (tlk : TlkFile)
    (h : tlk.entries.length < 2 ^ 32) :
    readLE (to_bytes enc tlk) 10 4 = tlk.entries.length := by
  unfold readLE
  simp only [to_bytes, tlkHeader, List.append_assoc]
  rw [show (10 : Nat) = 4 + 6 from rfl,
    drop_len_append_add _ 6 (show TLK_SIGNATURE.length = 4 from rfl),
    show (6 : Nat) = 4 + 2 from rfl,
    drop_len_append_add _ 2 (show TLK_VERSION.length = 4 from rfl),
    drop_len_append _ (length_writeLE _ 2), readLEList_writeLE, pow256_four]
  exact Nat.mod_eq_of_lt h

theorem wire_sbo (enc : List Nat → List Nat) (tlk : TlkFile)
    (h : HDR_SIZE + tlk.entries.length * ENTRY_SIZE < 2 ^ 32) :
    readLE (to_bytes enc tlk) 14 4 = HDR_SIZE + tlk.entries.length * ENTRY_SIZE := by
  unfold readLE
  simp only [to_bytes, tlkHeader, List.append_assoc]
  rw [show (14 : Nat) = 4 + 10 from rfl,
    drop_len_append_add _ 10 (show TLK_SIGNATURE.length = 4 from rfl),
    show (10 : Nat) = 4 + 6 from rfl,
    drop_len_append_add _ 6 (show TLK_VERSION.length = 4 from rfl),
    show (6 : Nat) = 2 + 4 from rfl, drop_len_append_add _ 4 (length_writeLE _ 2),
    drop_len_append _ (length_writeLE _ 4), readLEList_writeLE, pow256_four]
  exact Nat.mod_eq_of_lt h

/-! ### C1 -/

/-- C1: decoding the bytes produced by encoding any valid Table with the
same codec yields the same Table field for field and in the same entry
order, except that the sound_resref of each decoded entry is the 8-byte
padded/truncated value and its flags have bit 0 recomputed to agree with
text being non-empty, all higher flag bits passing through unchanged. -/
theorem c1_round_trip (enc dec : List Nat → List Nat) (tlk : TlkFile)
    (hlang : tlk.language_id < 2 ^ 16)
    (hsize : HDR_SIZE + tlk.entries.length * ENTRY_SIZE < 2 ^ 32)
    (hblob : (stringBlock enc tlk.entries).length < 2 ^ 32)
    (hf : ∀ x ∈ tlk.entries, x.flags < 2 ^ 16)
    (hv : ∀ x ∈ tlk.entries, x.volume_variance < 2 ^ 32)
    (hp : ∀ x ∈ tlk.entries, x.pitch_variance < 2 ^ 32)
    (hdec : ∀ x ∈ tlk.entries, dec (enc x.text) = x.text) :
    tlkParse dec (to_bytes enc tlk)
      = Except.ok { language_id := tlk.language_id, entries := tlk.entries.map roundImage }
    ∧ ∀ x : TlkEntry, (roundImage x).text = x.text
        ∧ (roundImage x).sound_resref = ljust8 x.sound_resref
        ∧ (roundImage x).volume_variance = x.volume_variance
        ∧ (roundImage x).pitch_variance = x.pitch_variance
        ∧ (roundImage x).flags.testBit 0 = decide (x.text ≠ [])
        ∧ ∀ k, (roundImage x).flags.testBit (k + 1) = x.flags.testBit (k + 1) := by
  constructor
  · have hN : tlk.entries.length < 2 ^ 32 := by
      unfold HDR_SIZE ENTRY_SIZE at hsize
      omega
    have h18 : HDR_SIZE ≤ (to_bytes enc tlk).length := by
      rw [length_to_bytes]
      unfold HDR_SIZE
      omega
    have hloop := parseEntries_to_bytes enc dec tlk hf hv hp hdec hblob tlk.entries []
      (by simp)
    simp only [List.length_nil] at hloop
    unfold tlkParse
    rw [if_pos h18, to_bytes_take4]
    rw [if_neg (by simp)]
    rw [to_bytes_version]
    rw [if_neg (by simp)]
    rw [wire_lang enc tlk hlang, wire_count enc tlk hN, wire_sbo enc tlk hsize, hloop]
  · intro x
    exact ⟨rfl, rfl, rfl, rfl, recalcFlags_testBit_zero x,
      fun k => recalcFlags_testBit_pos x k⟩

/-- A concrete table exercising C1: non-trivial flags, a short and a long
sound_resref, an empty and a non-empty text. -/
def c1Example : TlkFile :=
  TlkFile.mk 7 [TlkEntry.mk [72, 105] [1, 2] 4 3 5,
    TlkEntry.mk [] (List.replicate 9 6) 7 0 0]

/-- Witness for C1 at a concrete table with the identity single-byte codec. -/
theorem c1_round_trip_witness :
    tlkParse (fun bs => bs) (to_bytes (fun cs => cs) c1Example)
      = Except.ok (TlkFile.mk c1Example.language_id (c1Example.entries.map roundImage)) :=
  (c1_round_trip (fun cs => cs) (fun bs => bs) c1Example (by decide) (by decide)
    (by decide) (by decide) (by decide) (by decide) (by decide)).1

/-! ### Index-based splitting helpers -/

theorem split_at_index {α : Type} [Inhabited α] (es : List α) (i : Nat)
    (hi : i < es.length) :
    es = es.take i ++ es.getD i default :: es.drop (i + 1) := by
  have hg : es.getD i default = es.get ⟨i, hi⟩ := by
    rw [List.getD_eq_getElem es default hi]
    simp
  have hd : es.drop i = es.get ⟨i, hi⟩ :: es.drop (i + 1) := by
    rw [List.drop_eq_getElem_cons hi]
    simp
  rw [hg, ← hd, List.take_append_drop]

theorem length_take_of_le {α : Type} (es : List α) (i : Nat) (hi : i ≤ es.length) :
    (es.take i).length = i := by
  rw [List.length_take]
  omega

theorem stringBlock_take_le (enc : List Nat → List Nat) (es : List TlkEntry) (i : Nat) :
    (stringBlock enc (es.take i)).length ≤ (stringBlock enc es).length := by
  conv_rhs => rw [← List.take_append_drop i es]
  rw [stringBlock_append, List.length_append]
  omega

theorem stringBlock_take_succ (enc : List Nat → List Nat) (es : List TlkEntry) (i : Nat)
    (hi : i < es.length) :
    (stringBlock enc (es.take (i + 1))).length
      = (stringBlock enc (es.take i)).length + (enc (es.getD i default).text).length := by
  have hg : es.getD i default = es.get ⟨i, hi⟩ := by
    rw [List.getD_eq_getElem es default hi]
    simp
  have h1 : es.take (i + 1) = es.take i ++ [es.getD i default] := by
    rw [hg, ← List.take_concat_get es i hi, List.concat_eq_append]
    simp
  rw [h1, stringBlock_append, List.length_append]
  simp [stringBlock]

/-! ### C2: no bounds error on an out-of-range string slice -/

/-- A 44-byte buffer: valid header, one entry whose string range is
[44, 144), lying entirely outside the buffer. -/
def c2Buffer : List Nat :=
  TLK_SIGNATURE ++ TLK_VERSION ++ writeLE 0 2 ++ writeLE 1 4 ++ writeLE 44 4
    ++ writeLE 1 2 ++ List.replicate 8 0 ++ writeLE 0 4 ++ writeLE 0 4
    ++ writeLE 0 4 ++ writeLE 100 4

/-- C2: the claim requires an explicit bounds error when the string
range of an entry falls outside the buffer; here the range [44, 144) exceeds
the 44-byte buffer, yet decode succeeds, silently producing an entry with
clipped (empty) text — the Python slice clips instead of raising. -/
theorem c2_no_bounds_error :
    c2Buffer.length = 44
    ∧ c2Buffer.length < 44 + 100
    ∧ tlkParse (fun bs => bs) c2Buffer
        = Except.ok (TlkFile.mk 0 [TlkEntry.mk [] (List.replicate 8 0) 1 0 0]) := by
  refine ⟨by decide, by decide, by decide⟩

/-! ### C3: flags on the wire -/

/-- C3: the flags field encode writes for entry i has bit 0 equal to
whether the text of that entry is non-empty, and bits 1 and 2 copied through
from the in-memory entry unmodified. -/
theorem c3_wire_flags (enc : List Nat → List Nat) (tlk : TlkFile) (i : Nat)
    (hi : i < tlk.entries.length)
    (hf : (tlk.entries.getD i default).flags < 2 ^ 16) :
    (readLE (to_bytes enc tlk) (HDR_SIZE + i * ENTRY_SIZE) 2).testBit 0
        = decide ((tlk.entries.getD i default).text ≠ [])
    ∧ (readLE (to_bytes enc tlk) (HDR_SIZE + i * ENTRY_SIZE) 2).testBit 1
        = (tlk.entries.getD i default).flags.testBit 1
    ∧ (readLE (to_bytes enc tlk) (HDR_SIZE + i * ENTRY_SIZE) 2).testBit 2
        = (tlk.entries.getD i default).flags.testBit 2 := by
  have hsplit := split_at_index tlk.entries i hi
  have hw := wire_flags enc tlk (tlk.entries.take i) (tlk.entries.getD i default)
    (tlk.entries.drop (i + 1)) hsplit hf
  rw [length_take_of_le tlk.entries i (Nat.le_of_lt hi)] at hw
  rw [hw]
  exact ⟨recalcFlags_testBit_zero _, recalcFlags_testBit_pos _ 0, recalcFlags_testBit_pos _ 1⟩

/-- A concrete table exercising C3: entry 0 has non-empty text with bit 0
unset and bits 1, 2 set; entry 1 has empty text with bit 0 set. -/
def c3Example : TlkFile :=
  TlkFile.mk 0 [TlkEntry.mk [65] [] 6 0 0, TlkEntry.mk [] [] 1 0 0]

/-- Witness for C3 at entry 0 of the concrete table. -/
theorem c3_wire_flags_witness :
    (readLE (to_bytes (fun cs => cs) c3Example) (HDR_SIZE + 0 * ENTRY_SIZE) 2).testBit 0
        = decide ((c3Example.entries.getD 0 default).text ≠ [])
    ∧ (readLE (to_bytes (fun cs => cs) c3Example) (HDR_SIZE + 0 * ENTRY_SIZE) 2).testBit 1
        = (c3Example.entries.getD 0 default).flags.testBit 1
    ∧ (readLE (to_bytes (fun cs => cs) c3Example) (HDR_SIZE + 0 * ENTRY_SIZE) 2).testBit 2
        = (c3Example.entries.getD 0 default).flags.testBit 2 :=
  c3_wire_flags (fun cs => cs) c3Example 0 (by decide) (by decide)

/-! ### C4: sound_resref on the wire -/

theorem ljust8_of_le {b : List Nat} (h : b.length ≤ 8) :
    ljust8 b = b ++ List.replicate (8 - b.length) 0 := by
  unfold ljust8
  rw [List.take_of_length_le h]

theorem ljust8_of_ge {b : List Nat} (h : 8 ≤ b.length) :
    ljust8 b = b.take 8 := by
  unfold ljust8
  have h8 : (b.take 8).length = 8 := by
    rw [List.length_take]
    omega
  rw [h8]
  simp

/-- C4: the sound_identifier bytes encode writes for entry i are exactly the
8-byte field: the in-memory value truncated to its first 8 bytes and
zero-padded on the right to 8 bytes — identity padding when at most 8 bytes
long, plain truncation when at least 8 bytes long. -/
theorem c4_wire_sound (enc : List Nat → List Nat) (tlk : TlkFile) (i : Nat)
    (hi : i < tlk.entries.length) :
    ((to_bytes enc tlk).drop (HDR_SIZE + i * ENTRY_SIZE + 2)).take 8
        = ljust8 (tlk.entries.getD i default).sound_resref
    ∧ (ljust8 (tlk.entries.getD i default).sound_resref).length = 8
    ∧ ((tlk.entries.getD i default).sound_resref.length ≤ 8 →
        ljust8 (tlk.entries.getD i default).sound_resref
          = (tlk.entries.getD i default).sound_resref
            ++ List.replicate (8 - (tlk.entries.getD i default).sound_resref.length) 0)
    ∧ (8 ≤ (tlk.entries.getD i default).sound_resref.length →
        ljust8 (tlk.entries.getD i default).sound_resref
          = (tlk.entries.getD i default).sound_resref.take 8) := by
  have hsplit := split_at_index tlk.entries i hi
  have hw := wire_sound enc tlk (tlk.entries.take i) (tlk.entries.getD i default)
    (tlk.entries.drop (i + 1)) hsplit
  rw [length_take_of_le tlk.entries i (Nat.le_of_lt hi)] at hw
  exact ⟨hw, length_ljust8 _, fun h => ljust8_of_le h, fun h => ljust8_of_ge h⟩

/-- A concrete table exercising C4, with an exactly-8-byte identifier so
that both boundary characterizations apply. -/
def c4Example : TlkFile :=
  TlkFile.mk 0 [TlkEntry.mk [65] [1, 2, 3, 4, 5, 6, 7, 8] 1 0 0]

/-- Witness for C4 at entry 0 of the concrete table. -/
theorem c4_wire_sound_witness :
    ((to_bytes (fun cs => cs) c4Example).drop (HDR_SIZE + 0 * ENTRY_SIZE + 2)).take 8
        = ljust8 (c4Example.entries.getD 0 default).sound_resref
    ∧ (ljust8 (c4Example.entries.getD 0 default).sound_resref).length = 8
    ∧ ((c4Example.entries.getD 0 default).sound_resref.length ≤ 8 →
        ljust8 (c4Example.entries.getD 0 default).sound_resref
          = (c4Example.entries.getD 0 default).sound_resref
            ++ List.replicate (8 - (c4Example.entries.getD 0 default).sound_resref.length) 0)
    ∧ (8 ≤ (c4Example.entries.getD 0 default).sound_resref.length →
        ljust8 (c4Example.entries.getD 0 default).sound_resref
          = (c4Example.entries.getD 0 default).sound_resref.take 8) :=
  c4_wire_sound (fun cs => cs) c4Example 0 (by decide)

/-! ### C5: header offset field and dense packing -/

/-- C5: the string_block_offset header field of the encoded buffer equals
18 + N * 26, the string offset of the first entry is 0, and consecutive wire
string offsets differ by exactly the wire string length of the previous entry:
the blob is densely packed in entry order. -/
theorem c5_offsets (enc : List Nat → List Nat) (tlk : TlkFile)
    (hsize : HDR_SIZE + tlk.entries.length * ENTRY_SIZE < 2 ^ 32)
    (hblob : (stringBlock enc tlk.entries).length < 2 ^ 32) :
    readLE (to_bytes enc tlk) 14 4 = HDR_SIZE + tlk.entries.length * ENTRY_SIZE
    ∧ (0 < tlk.entries.length →
        readLE (to_bytes enc tlk) (HDR_SIZE + 0 * ENTRY_SIZE + 18) 4 = 0)
    ∧ ∀ i, i + 1 < tlk.entries.length →
        readLE (to_bytes enc tlk) (HDR_SIZE + (i + 1) * ENTRY_SIZE + 18) 4
          = readLE (to_bytes enc tlk) (HDR_SIZE + i * ENTRY_SIZE + 18) 4
            + readLE (to_bytes enc tlk) (HDR_SIZE + i * ENTRY_SIZE + 22) 4 := by
  refine ⟨wire_sbo enc tlk hsize, ?_, ?_⟩
  · intro h0
    have hw := wire_stroff enc tlk (tlk.entries.take 0) (tlk.entries.getD 0 default)
      (tlk.entries.drop 1) (split_at_index tlk.entries 0 h0)
    simp only [List.take_zero, List.length_nil] at hw
    rw [hw]
    rfl
  · intro i hi1
    have hi : i < tlk.entries.length := by omega
    have hoff := wire_stroff enc tlk (tlk.entries.take i) (tlk.entries.getD i default)
      (tlk.entries.drop (i + 1)) (split_at_index tlk.entries i hi)
    have hlen := wire_strlen enc tlk (tlk.entries.take i) (tlk.entries.getD i default)
      (tlk.entries.drop (i + 1)) (split_at_index tlk.entries i hi)
    have hoff1 := wire_stroff enc tlk (tlk.entries.take (i + 1))
      (tlk.entries.getD (i + 1) default) (tlk.entries.drop (i + 2))
      (split_at_index tlk.entries (i + 1) hi1)
    rw [length_take_of_le tlk.entries i (Nat.le_of_lt hi)] at hoff hlen
    rw [length_take_of_le tlk.entries (i + 1) (Nat.le_of_lt hi1)] at hoff1
    have hsucc := stringBlock_take_succ enc tlk.entries i hi
    have hle1 := stringBlock_take_le enc tlk.entries (i + 1)
    have hle0 := stringBlock_take_le enc tlk.entries i
    rw [hoff, hlen, hoff1, hsucc]
    rw [Nat.mod_eq_of_lt (by omega), Nat.mod_eq_of_lt (by omega),
      Nat.mod_eq_of_lt (by omega)]

/-- A concrete two-entry table exercising C5. -/
def c5Example : TlkFile :=
  TlkFile.mk 0 [TlkEntry.mk [72, 105] [] 1 0 0, TlkEntry.mk [66, 121, 101] [] 1 0 0]

/-- Witness for C5 at the concrete table. -/
theorem c5_offsets_witness :
    readLE (to_bytes (fun cs => cs) c5Example) 14 4
        = HDR_SIZE + c5Example.entries.length * ENTRY_SIZE
    ∧ readLE (to_bytes (fun cs => cs) c5Example) (HDR_SIZE + 0 * ENTRY_SIZE + 18) 4 = 0
    ∧ readLE (to_bytes (fun cs => cs) c5Example) (HDR_SIZE + (0 + 1) * ENTRY_SIZE + 18) 4
        = readLE (to_bytes (fun cs => cs) c5Example) (HDR_SIZE + 0 * ENTRY_SIZE + 18) 4
          + readLE (to_bytes (fun cs => cs) c5Example) (HDR_SIZE + 0 * ENTRY_SIZE + 22) 4 :=
  ⟨(c5_offsets (fun cs => cs) c5Example (by decide) (by decide)).1,
    (c5_offsets (fun cs => cs) c5Example (by decide) (by decide)).2.1 (by decide),
    (c5_offsets (fun cs => cs) c5Example (by decide) (by decide)).2.2 0 (by decide)⟩

/-! ### C6: signature and version validation -/

/-- C6 counterexample: a 17-byte all-zero buffer has first four bytes
different from the signature, yet decode raises struct.error (from
unpack_from on the short header) rather than the signature/version
ValueError the claim promises for every such buffer. -/
theorem c6_counterexample :
    (List.replicate 17 0).take 4 ≠ TLK_SIGNATURE
    ∧ tlkParse (fun bs => bs) (List.replicate 17 0) = Except.error TlkError.structError
    ∧ TlkError.structError ≠ TlkError.badSignature
    ∧ TlkError.structError ≠ TlkError.badVersion := by
  refine ⟨by decide, by decide, by decide, by decide⟩

/-- C6 amended: for every buffer holding at least the 18 header bytes, a
signature or version mismatch makes decode fail with the corresponding
format ValueError — the signature is checked first — and no partial Table
is produced. -/
theorem c6_amended (dec : List Nat → List Nat) (data : List Nat)
    (h18 : HDR_SIZE ≤ data.length)
    (hbad : data.take 4 ≠ TLK_SIGNATURE ∨ (data.drop 4).take 4 ≠ TLK_VERSION) :
    tlkParse dec data
      = Except.error (if data.take 4 ≠ TLK_SIGNATURE then TlkError.badSignature
          else TlkError.badVersion) := by
  unfold tlkParse
  rw [if_pos h18]
  by_cases hsig : data.take 4 ≠ TLK_SIGNATURE
  · rw [if_pos hsig, if_pos hsig]
  · rw [if_neg hsig, if_neg hsig]
    have hver : (data.drop 4).take 4 ≠ TLK_VERSION := hbad.resolve_left hsig
    rw [if_pos hver]

/-- Witness for the amended C6 at a concrete 18-byte all-zero buffer. -/
theorem c6_amended_witness :
    tlkParse (fun bs => bs) (List.replicate 18 0)
      = Except.error (if (List.replicate 18 0).take 4 ≠ TLK_SIGNATURE
          then TlkError.badSignature else TlkError.badVersion) :=
  c6_amended (fun bs => bs) (List.replicate 18 0) (by decide) (Or.inl (by decide))

/-! ### C7: concrete merge scenarios -/

/-- An entry built the way the self-test builds them: given text, flags
FLAG_TEXT when the text is non-empty and 0 otherwise, defaults elsewhere. -/
def mkTestEntry (t : List Nat) : TlkEntry :=
  TlkEntry.mk t (List.replicate 8 0) (if t ≠ [] then FLAG_TEXT else 0) 0 0

/-- The code points of "Hallo Welt". -/
def c7HalloWelt : List Nat := [72, 97, 108, 108, 111, 32, 87, 101, 108, 116]

/-- The code points of "Hello World". -/
def c7HelloWorld : List Nat := [72, 101, 108, 108, 111, 32, 87, 111, 114, 108, 100]

/-- The code points of "Gleicher Text". -/
def c7Gleicher : List Nat := [71, 108, 101, 105, 99, 104, 101, 114, 32, 84, 101, 120, 116]

/-- The code points of "Nur Primär". -/
def c7NurPrimaer : List Nat := [78, 117, 114, 32, 80, 114, 105, 109, 228, 114]

/-- The code points of the separator string of newline, three dashes,
newline. -/
def c7Sep : List Nat := [10, 45, 45, 45, 10]

/-- The primary test table of the self-test. -/
def c7Primary : TlkFile :=
  TlkFile.mk 0 [mkTestEntry c7HalloWelt, mkTestEntry [], mkTestEntry c7Gleicher,
    mkTestEntry c7NurPrimaer]

/-- The secondary test table of the self-test. -/
def c7Secondary : TlkFile :=
  TlkFile.mk 0 [mkTestEntry c7HelloWorld, mkTestEntry [], mkTestEntry c7Gleicher,
    mkTestEntry []]

/-- C7: the merge decision table on the concrete scenario pairs — differing
texts combine with the separator in either order depending on swap, a pair
with empty secondary keeps the primary, an identical pair keeps the text,
and an empty pair yields an empty entry with flags bit 0 cleared. -/
theorem c7_merge_scenarios :
    ((merge_tlks c7Primary c7Secondary c7Sep false).entries.getD 0 default).text
        = c7HalloWelt ++ c7Sep ++ c7HelloWorld
    ∧ ((merge_tlks c7Primary c7Secondary c7Sep true).entries.getD 0 default).text
        = c7HelloWorld ++ c7Sep ++ c7HalloWelt
    ∧ ((merge_tlks c7Primary c7Secondary c7Sep false).entries.getD 3 default).text
        = c7NurPrimaer
    ∧ ((merge_tlks c7Primary c7Secondary c7Sep false).entries.getD 2 default).text
        = c7Gleicher
    ∧ ((merge_tlks c7Primary c7Secondary c7Sep false).entries.getD 1 default).text = []
    ∧ ((merge_tlks c7Primary c7Secondary c7Sep false).entries.getD 1
        default).flags.testBit 0 = false := by
  refine ⟨by decide, by decide, by decide, by decide, by decide, by decide⟩

/-! ### C8: entry count mismatch -/

/-- C8: merging tables with different entry counts does not fail: the
warning condition fires and the merged table has exactly the minimum of
the two entry counts. -/
theorem c8_count_mismatch (p s : TlkFile) (sep : List Nat) (sw : Bool)
    (h : p.entries.length ≠ s.entries.length) :
    merge_warns p s = true
    ∧ (merge_tlks p s sep sw).entries.length
        = min p.entries.length s.entries.length := by
  constructor
  · simp [merge_warns, h]
  · simp [merge_tlks, List.length_zipWith]

/-- Primary table with two entries for the C8 witness. -/
def c8Primary : TlkFile :=
  TlkFile.mk 0 [TlkEntry.mk [65] [] 1 0 0, TlkEntry.mk [66] [] 1 0 0]

/-- Secondary table with one entry for the C8 witness. -/
def c8Secondary : TlkFile := TlkFile.mk 0 [TlkEntry.mk [67] [] 1 0 0]

/-- Witness for C8 at tables of lengths 2 and 1. -/
theorem c8_count_mismatch_witness :
    merge_warns c8Primary c8Secondary = true
    ∧ (merge_tlks c8Primary c8Secondary [10] false).entries.length
        = min c8Primary.entries.length c8Secondary.entries.length :=
  c8_count_mismatch c8Primary c8Secondary [10] false (by decide)

/-! ### C9: stripping semantics of the merge decision -/

theorem pyStrip_eq_nil {t : List Nat} (h : ∀ c ∈ t, isPySpace c = true) :
    pyStrip t = [] := by
  unfold pyStrip
  rw [List.dropWhile_eq_nil_iff.mpr h]
  rfl

/-- C9: the merge decides emptiness and equality on whitespace-stripped
texts — whitespace-only text counts as empty and texts equal after
stripping count as identical — while the original unstripped
text of the kept entry is what gets stored. -/
theorem c9_strip_semantics (p s : TlkEntry) (sep : List Nat) (sw : Bool) :
    ((∀ c ∈ s.text, isPySpace c = true) → pyStrip p.text ≠ [] →
        (mergeEntry p s sep sw).text = p.text)
    ∧ (pyStrip p.text = pyStrip s.text → pyStrip p.text ≠ [] →
        (mergeEntry p s sep sw).text = p.text)
    ∧ ((∀ c ∈ p.text, isPySpace c = true) → pyStrip s.text ≠ [] →
        (mergeEntry p s sep sw).text = s.text)
    ∧ ((∀ c ∈ p.text, isPySpace c = true) → (∀ c ∈ s.text, isPySpace c = true) →
        (mergeEntry p s sep sw).text = []) := by
  refine ⟨?_, ?_, ?_, ?_⟩
  · intro hws hp
    have hs : pyStrip s.text = [] := pyStrip_eq_nil hws
    simp only [mergeEntry]
    rw [if_neg (fun hc => hp hc.1), if_pos (Or.inr hs)]
  · intro heq hp
    simp only [mergeEntry]
    rw [if_neg (fun hc => hp hc.1), if_pos (Or.inl heq)]
  · intro hws hsne
    have hp : pyStrip p.text = [] := pyStrip_eq_nil hws
    simp only [mergeEntry]
    rw [if_neg (fun hc => hsne hc.2)]
    rw [if_neg ?hne, if_pos hp]
    case hne =>
      intro hc
      rcases hc with hc | hc
      · exact hsne (hp ▸ hc).symm
      · exact hsne hc
  · intro h1 h2
    simp only [mergeEntry]
    rw [if_pos ⟨pyStrip_eq_nil h1, pyStrip_eq_nil h2⟩]

/-- An entry whose text " A " strips to "A". -/
def c9Padded : TlkEntry := TlkEntry.mk [32, 65, 32] [] 1 0 0

/-- An entry with whitespace-only text. -/
def c9Blank : TlkEntry := TlkEntry.mk [32, 9] [] 1 0 0

/-- An entry with text "A". -/
def c9Plain : TlkEntry := TlkEntry.mk [65] [] 1 0 0

/-- Witness for C9: all four stripping behaviours at concrete entries. -/
theorem c9_strip_semantics_witness :
    (mergeEntry c9Padded c9Blank [10] false).text = c9Padded.text
    ∧ (mergeEntry c9Padded c9Plain [10] false).text = c9Padded.text
    ∧ (mergeEntry c9Blank c9Plain [10] false).text = c9Plain.text
    ∧ (mergeEntry c9Blank c9Blank [10] false).text = [] :=
  ⟨(c9_strip_semantics c9Padded c9Blank [10] false).1 (by decide) (by decide),
    (c9_strip_semantics c9Padded c9Plain [10] false).2.1 (by decide) (by decide),
    (c9_strip_semantics c9Blank c9Plain [10] false).2.2.1 (by decide) (by decide),
    (c9_strip_semantics c9Blank c9Blank [10] false).2.2.2 (by decide) (by decide)⟩

/-! ### C10: merged metadata comes from the primary -/

theorem getD_zipWith {α β γ : Type} [Inhabited α] [Inhabited β] [Inhabited γ]
    (f : α → β → γ) (xs : List α) (ys : List β) (i : Nat)
    (hi : i < (List.zipWith f xs ys).length) :
    (List.zipWith f xs ys).getD i default = f (xs.getD i default) (ys.getD i default) := by
  induction xs generalizing ys i with
  | nil => simp at hi
  | cons x xs ih =>
      cases ys with
      | nil => simp at hi
      | cons y ys =>
          cases i with
          | zero => rfl
          | succ i =>
              simp only [List.zipWith_cons_cons, List.length_cons] at hi
              simp only [List.zipWith_cons_cons, List.getD_cons_succ]
              exact ih ys i (by omega)

/-- Every branch of the merge decision copies the primary
sound_resref and variance fields of the entry. -/
theorem mergeEntry_meta (p s : TlkEntry) (sep : List Nat) (sw : Bool) :
    (mergeEntry p s sep sw).sound_resref = p.sound_resref
    ∧ (mergeEntry p s sep sw).volume_variance = p.volume_variance
    ∧ (mergeEntry p s sep sw).pitch_variance = p.pitch_variance := by
  simp only [mergeEntry]
  split
  · exact ⟨rfl, rfl, rfl⟩
  · split
    · exact ⟨rfl, rfl, rfl⟩
    · split
      · exact ⟨rfl, rfl, rfl⟩
      · exact ⟨rfl, rfl, rfl⟩

/-- C10: the merged table takes the language_id of the primary, and every merged
entry takes its sound_resref, volume_variance and pitch_variance from the
primary entry at the same index, whichever branch produced its text. -/
theorem c10_primary_metadata (p s : TlkFile) (sep : List Nat) (sw : Bool) :
    (merge_tlks p s sep sw).language_id = p.language_id
    ∧ ∀ i, i < (merge_tlks p s sep sw).entries.length →
        ((merge_tlks p s sep sw).entries.getD i default).sound_resref
            = (p.entries.getD i default).sound_resref
        ∧ ((merge_tlks p s sep sw).entries.getD i default).volume_variance
            = (p.entries.getD i default).volume_variance
        ∧ ((merge_tlks p s sep sw).entries.getD i default).pitch_variance
            = (p.entries.getD i default).pitch_variance := by
  refine ⟨rfl, ?_⟩
  intro i hi
  have hz : (merge_tlks p s sep sw).entries.getD i default
      = mergeEntry (p.entries.getD i default) (s.entries.getD i default) sep sw := by
    simp only [merge_tlks] at hi ⊢
    exact getD_zipWith _ p.entries s.entries i hi
  rw [hz]
  exact mergeEntry_meta _ _ sep sw

/-- Primary table for the C10 witness: distinct metadata everywhere. -/
def c10Primary : TlkFile := TlkFile.mk 3 [TlkEntry.mk [65] [9, 9] 1 4 5]

/-- Secondary table for the C10 witness. -/
def c10Secondary : TlkFile := TlkFile.mk 8 [TlkEntry.mk [66] [7] 1 6 7]

/-- Witness for C10 at index 0 of concrete tables. -/
theorem c10_primary_metadata_witness :
    (merge_tlks c10Primary c10Secondary [10] false).language_id = c10Primary.language_id
    ∧ (((merge_tlks c10Primary c10Secondary [10] false).entries.getD 0
          default).sound_resref = (c10Primary.entries.getD 0 default).sound_resref
        ∧ ((merge_tlks c10Primary c10Secondary [10] false).entries.getD 0
            default).volume_variance = (c10Primary.entries.getD 0 default).volume_variance
        ∧ ((merge_tlks c10Primary c10Secondary [10] false).entries.getD 0
            default).pitch_variance = (c10Primary.entries.getD 0 default).pitch_variance) :=
  ⟨(c10_primary_metadata c10Primary c10Secondary [10] false).1,
    (c10_primary_metadata c10Primary c10Secondary [10] false).2 0 (by decide)⟩

end Tlk
